import Mathlib

/-!
Verification of the checkpointed alert-search core of the `incydr` CLI
(`src/incydr/cli/cmds/alerts.py`).

The embedding translates:
* `_update_checkpoint` (the checkpoint coordinator generator) as a fold over
  the fetched record list, threading the cursor state and recording every
  yield and every persist call;
* the query-construction part of `search` (lines 97-125), including the
  checkpoint start-override and the `--advanced-query` path;
* `bulk_update_state`'s grouping/chunking plan;
* the `CursorStore` and `AlertQuery` collaborators, which are not part of the
  provided sources, modelled from the spec.
-/

namespace Incydr

/-- An alert record as seen by the coordinator: a stable id and a creation
timestamp (`created_at`, modelled as a natural-number epoch value). -/
structure Alert where
  id : String
  created_at : Nat
deriving DecidableEq

/-- Persisted checkpoint state for one checkpoint name: the stored timestamp
(`cursor.get` / `cursor.replace`) and the stored id list
(`cursor.get_items` / `cursor.replace_items`). -/
structure CursorState where
  last_timestamp : Option Nat
  seen_ids : List String
deriving DecidableEq

/-- Full state of one coordinator run: the in-run running maximum
(`new_timestamp`), the in-run id collection (`new_alerts`), the persisted
cursor state, the records yielded so far, and the trace of persist calls
(each a full replacement `(timestamp, ids)`). -/
structure RunState where
  new_timestamp : Option Nat
  new_alerts : List String
  store : CursorState
  yielded : List Alert
  persists : List (Nat × List String)
deriving DecidableEq

/-- One iteration of the loop body of `_update_checkpoint`
(src/incydr/cli/cmds/alerts.py lines 355-365): skip ids found in the
snapshot `checkpoint_alerts`; otherwise reset `new_alerts` and bump
`new_timestamp` when the record's timestamp strictly exceeds it (or it is
unset), append the id, yield, and persist timestamp and id list by full
replacement. -/
def stepUpdate (checkpoint_alerts : List String) (s : RunState) (alert : Alert) : RunState :=
  if alert.id ∈ checkpoint_alerts then s
  else
    let p : Nat × List String :=
      match s.new_timestamp with
      | none => (alert.created_at, [])
      | some m => if m < alert.created_at then (alert.created_at, []) else (m, s.new_alerts)
    let na := p.2 ++ [alert.id]
    { new_timestamp := some p.1
      new_alerts := na
      store := { last_timestamp := some p.1, seen_ids := na }
      yielded := s.yielded ++ [alert]
      persists := s.persists ++ [(p.1, na)] }

/-- `_update_checkpoint cursor checkpoint_name alerts_gen`: reads
`checkpoint_alerts = cursor.get_items(checkpoint_name)` once from the stored
state, then folds the loop body over the fetched records. -/
def runCheckpoint (store0 : CursorState) (alerts_gen : List Alert) : RunState :=
  alerts_gen.foldl (stepUpdate store0.seen_ids)
    { new_timestamp := none, new_alerts := [], store := store0, yielded := [], persists := [] }

/-- The update applied to `new_timestamp` by each yielded record: set when
unset, otherwise bump by a strictly larger `created_at`. -/
def bumpMax (acc : Option Nat) (a : Alert) : Option Nat :=
  match acc with
  | none => some a.created_at
  | some m => if m < a.created_at then some a.created_at else some m

/-- Running maximum timestamp of a list of yielded records. -/
def maxTs (ys : List Alert) : Option Nat := ys.foldl bumpMax none

/-- The id collection the coordinator holds after yielding `ys`: the ids of
every record from the first one achieving the final running maximum onward
(the collection is emptied exactly when the running maximum strictly
increases, which happens at the first record attaining the final maximum). -/
def newIdsSpec (ys : List Alert) : List String :=
  match maxTs ys with
  | none => []
  | some m => (ys.dropWhile (fun a => decide (a.created_at ≠ m))).map (fun a => a.id)

/-- The expected trace of persist calls after yielding `ys`: one call per
yielded record, the k-th carrying the running maximum and id collection for
the first k+1 yielded records. -/
def persistsSpec (ys : List Alert) : List (Nat × List String) :=
  (List.range ys.length).map
    (fun k => ((maxTs (ys.take (k + 1))).getD 0, newIdsSpec (ys.take (k + 1))))

/-- The stored state after a trace of persist calls: untouched when no
persist happened, otherwise a full replacement by the last call. -/
def storeSpec (store0 : CursorState) (ps : List (Nat × List String)) : CursorState :=
  match ps.getLast? with
  | none => store0
  | some p => { last_timestamp := some p.1, seen_ids := p.2 }

/-- The maximum `created_at` among a list of records (0 when empty). -/
def maxCreated (ys : List Alert) : Nat :=
  (ys.map (fun a => a.created_at)).foldl Nat.max 0

/-- A single filter term of an alert query. Modelled from the spec: a
predicate is a `(field, operator, value)` triple; `incydr._queries.alerts`
is not among the provided sources. -/
structure Predicate where
  field : String
  operator : String
  value : String
deriving DecidableEq

/-- Modelled from the spec: the Query Model of `incydr._queries.alerts`
(not among the provided sources) — optional start/end/on time bounds plus an
ordered predicate sequence. Timestamps are natural-number epoch values. -/
structure AlertQuery where
  start_date : Option Nat
  end_date : Option Nat
  on_date : Option Nat
  predicates : List Predicate
deriving DecidableEq

/-- Decimal digit to character. -/
def digit2char (d : Nat) : Char :=
  match d with
  | 0 => '0'
  | 1 => '1'
  | 2 => '2'
  | 3 => '3'
  | 4 => '4'
  | 5 => '5'
  | 6 => '6'
  | 7 => '7'
  | 8 => '8'
  | _ => '9'

/-- Character to decimal digit (default 0 for non-digits). -/
def char2digit (c : Char) : Nat :=
  match c with
  | '0' => 0
  | '1' => 1
  | '2' => 2
  | '3' => 3
  | '4' => 4
  | '5' => 5
  | '6' => 6
  | '7' => 7
  | '8' => 8
  | _ => 9

/-- Little-endian decimal digits of `n`, with explicit fuel (`fuel > n`
guarantees completion). -/
def digitsAux (fuel n : Nat) : List Nat :=
  match fuel with
  | 0 => []
  | fuel + 1 => if n < 10 then [n] else n % 10 :: digitsAux fuel (n / 10)

/-- Value of a little-endian decimal digit list. -/
def ofDigitsRev (ds : List Nat) : Nat :=
  match ds with
  | [] => 0
  | d :: ds => d + 10 * ofDigitsRev ds

/-- Big-endian decimal character representation of `n`. -/
def natChars (n : Nat) : List Char :=
  ((digitsAux (n + 1) n).map digit2char).reverse

/-- Decode a big-endian decimal character list. -/
def decNat (cs : List Char) : Nat :=
  ofDigitsRev ((cs.map char2digit).reverse)

/-- Recognizer for the ten decimal digit characters. -/
def isDig (c : Char) : Bool :=
  match c with
  | '0' => true
  | '1' => true
  | '2' => true
  | '3' => true
  | '4' => true
  | '5' => true
  | '6' => true
  | '7' => true
  | '8' => true
  | '9' => true
  | _ => false

/-- Longest digit run at the front of a character list, and the remainder. -/
def spanDigits (cs : List Char) : List Char × List Char :=
  match cs with
  | [] => ([], [])
  | c :: cs =>
    if isDig c then ((c :: (spanDigits cs).1), (spanDigits cs).2)
    else ([], c :: cs)

/-- Read a decimal number terminated by `t`, returning it and the
remainder. -/
def parseNatTerm (t : Char) (cs : List Char) : Option (Nat × List Char) :=
  match spanDigits cs with
  | (ds, c :: rest) => if c = t then some (decNat ds, rest) else none
  | (_, []) => none

/-- Encode a string value with a decimal length prefix (`<len>:<bytes>`), so
that arbitrary values — separators included — are delimited exactly. -/
def encStr (s : String) : List Char :=
  natChars s.length ++ ':' :: s.data

/-- Read one length-prefixed string value, returning it and the
remainder. -/
def parseStr (cs : List Char) : Option (String × List Char) :=
  (parseNatTerm ':' cs).bind (fun r =>
    if r.1 ≤ r.2.length then some (String.mk (r.2.take r.1), r.2.drop r.1) else none)

/-- Encode an optional timestamp field (`n` for absent, `d<digits>;` for
present). -/
def encOptNat (x : Option Nat) : List Char :=
  match x with
  | none => ['n']
  | some k => 'd' :: (natChars k ++ [';'])

/-- Read one optional timestamp field, returning it and the remainder. -/
def parseOptNat (cs : List Char) : Option (Option Nat × List Char) :=
  match cs with
  | [] => none
  | c :: rest =>
    if c = 'n' then some (none, rest)
    else if c = 'd' then
      (parseNatTerm ';' rest).bind (fun r => some (some r.1, r.2))
    else none

/-- Encode one predicate as its three length-prefixed components. -/
def encPred (p : Predicate) : List Char :=
  encStr p.field ++ encStr p.operator ++ encStr p.value

/-- Encode a predicate sequence in order. -/
def encPredList (ps : List Predicate) : List Char :=
  match ps with
  | [] => []
  | p :: t => encPred p ++ encPredList t

/-- Read one predicate, returning it and the remainder. -/
def parsePred (cs : List Char) : Option (Predicate × List Char) :=
  (parseStr cs).bind (fun r1 =>
    (parseStr r1.2).bind (fun r2 =>
      (parseStr r2.2).bind (fun r3 =>
        some (⟨r1.1, r2.1, r3.1⟩, r3.2))))

/-- Read exactly `n` predicates, returning them and the remainder. -/
def parsePreds (n : Nat) (cs : List Char) : Option (List Predicate × List Char) :=
  match n with
  | 0 => some ([], cs)
  | n + 1 =>
    (parsePred cs).bind (fun r1 =>
      (parsePreds n r1.2).bind (fun r2 => some (r1.1 :: r2.1, r2.2)))

/-- Modelled from the spec: `serialize(Query) -> string`
(`incydr._queries.alerts` is not among the provided sources) — a canonical
self-delimiting textual form: the three optional time fields, then the
predicate count, then each predicate's field/operator/value as
length-prefixed strings, so that every value (separator characters
included) round-trips exactly, as the spec requires of the real JSON
form. -/
def serializeQuery (q : AlertQuery) : String :=
  String.mk (encOptNat q.start_date ++ encOptNat q.end_date ++ encOptNat q.on_date
    ++ natChars q.predicates.length ++ ';' :: encPredList q.predicates)

/-- Modelled from the spec: `parse(string) -> Query`
(`AlertQuery.parse_raw`); reads the canonical form back and fails on input
that does not have exactly that shape. -/
def parseRaw (s : String) : Option AlertQuery :=
  (parseOptNat s.data).bind (fun r1 =>
    (parseOptNat r1.2).bind (fun r2 =>
      (parseOptNat r2.2).bind (fun r3 =>
        (parseNatTerm ';' r3.2).bind (fun r4 =>
          (parsePreds r4.1 r4.2).bind (fun r5 =>
            if r5.2 = [] then
              some (AlertQuery.mk r1.1 r2.1 r3.1 r5.1)
            else none)))))

/-- Outcome of the pre-fetch phase of the `search` command: a usage error, a
failure to parse the advanced query, or a query handed to
`client.alerts.v1.iter_all`. -/
inductive SearchOutcome where
  | usageError
  | parseFailure
  | runQuery (q : AlertQuery)
deriving DecidableEq

/-- Modelled from the spec: `AlertQuery.equals(field, value)` appends an
`IS` predicate, returning a new query (`incydr._queries.alerts` is not
among the provided sources). -/
def queryEquals (q : AlertQuery) (f v : String) : AlertQuery :=
  { q with predicates := q.predicates ++ [⟨f, "IS", v⟩] }

/-- `_create_query` (src/incydr/cli/cmds/alerts.py lines 316-325): build an
`AlertQuery` from the start/end/on bounds, then fold `equals` over the
supplied non-time filter options (already mapped through
`field_option_map`, in keyword order). -/
def createQuery (start end_ on_ : Option Nat) (filters : List (String × String)) :
    AlertQuery :=
  filters.foldl (fun q fv => queryEquals q fv.1 fv.2)
    { start_date := start, end_date := end_, on_date := on_, predicates := [] }

/-- The pre-fetch phase of `search` (src/incydr/cli/cmds/alerts.py lines
97-125): when a checkpoint name was given and `cursor.get` returns a truthy
timestamp (a nonzero float), it replaces the caller's `start`; an advanced
query is parsed as-is; otherwise a missing start/end/on raises
`BadOptionUsage` before any query is built or executed. -/
def searchPrepare (hasCheckpoint : Bool) (storedTs : Option Nat)
    (advancedQuery : Option String) (start end_ on_ : Option Nat)
    (filters : List (String × String)) : SearchOutcome :=
  let start :=
    if hasCheckpoint then
      match storedTs with
      | some t => if t ≠ 0 then some t else start
      | none => start
    else start
  match advancedQuery with
  | some s =>
    match parseRaw s with
    | some q => SearchOutcome.runQuery q
    | none => SearchOutcome.parseFailure
  | none =>
    if start.isSome || on_.isSome || end_.isSome then
      SearchOutcome.runQuery (createQuery start end_ on_ filters)
    else SearchOutcome.usageError

/-- Modelled from the spec: the `CursorStore` persisted layout (one record
per checkpoint name; `incydr/cli/cursor.py` is not among the provided
sources), as an association list. -/
abbrev CursorDir := List (String × CursorState)

/-- Modelled from the spec: `CursorStore.get(name)` — the stored timestamp,
or none for a never-used checkpoint. -/
def storeGet (name : String) (st : CursorDir) : Option Nat :=
  match st.find? (fun e => e.1 == name) with
  | some e => e.2.last_timestamp
  | none => none

/-- Modelled from the spec: `CursorStore.get_items(name)` — the stored id
list, empty for a never-used checkpoint. -/
def storeGetItems (name : String) (st : CursorDir) : List String :=
  match st.find? (fun e => e.1 == name) with
  | some e => e.2.seen_ids
  | none => []

/-- Modelled from the spec: `CursorStore.delete(name)` removes all state for
the checkpoint; deleting an absent name is a no-op. -/
def storeDelete (name : String) (st : CursorDir) : CursorDir :=
  st.filter (fun e => e.1 != name)

/-- One parsed row of `bulk_update_state` input (CSV or JSON lines): the
alert id, and the per-row state/note values (optional — the `--state`
option makes the state column optional, and `note` is always optional). -/
structure AlertRow where
  alert_id : String
  state : Option String
  note : Option String
deriving DecidableEq

/-- Python `opt or row`: the option value unless it is falsy (absent or the
empty string), in which case the row value. -/
def pyOr (opt row : Option String) : Option String :=
  match opt with
  | some s => if s = "" then row else some s
  | none => row

/-- The override the claim describes: the option value whenever supplied,
otherwise the row value. -/
def overrideOr (opt row : Option String) : Option String :=
  match opt with
  | some s => some s
  | none => row

/-- First occurrences, in order, of the elements of a list. -/
def firstKeys {κ : Type} [DecidableEq κ] (l : List κ) : List κ :=
  l.foldl (fun acc k => if k ∈ acc then acc else acc ++ [k]) []

/-- `boltons.iterutils.bucketize`: group the elements of `l` by `key`,
transforming each element with `val`; bucket order is first occurrence of
the key, and values within a bucket keep their input order. -/
def bucketize {α κ β : Type} [DecidableEq κ] (l : List α) (key : α → κ)
    (val : α → β) : List (κ × List β) :=
  (firstKeys (l.map key)).map
    (fun k => (k, (l.filter (fun x => decide (key x = k))).map val))

/-- `boltons.iterutils.chunked(l, size=100)` with explicit fuel: split into
consecutive chunks of at most 100 elements. -/
def chunkedAux {α : Type} (fuel : Nat) (l : List α) : List (List α) :=
  match fuel, l with
  | 0, _ => []
  | _, [] => []
  | fuel + 1, x :: xs => ((x :: xs).take 100) :: chunkedAux fuel ((x :: xs).drop 100)

/-- `chunked(l, size=100)`. -/
def chunked100 {α : Type} (l : List α) : List (List α) :=
  chunkedAux l.length l

/-- The batching plan of `bulk_update_state` (src/incydr/cli/cmds/alerts.py
lines 269-281): group rows by the Python expression
`(state or alert.state, note or alert.note)`, then cut each bucket's alert
ids into chunks of at most 100 for the `change_state` calls. -/
def bulkPlan (optState optNote : Option String) (rows : List AlertRow) :
    List ((Option String × Option String) × List (List String)) :=
  (bucketize rows (fun r => (pyOr optState r.state, pyOr optNote r.note))
      (fun r => r.alert_id)).map
    (fun b => (b.1, chunked100 b.2))

section CoordinatorLemmas

theorem bumpMax_some (m : Nat) (a : Alert) :
    bumpMax (some m) a = some (if m < a.created_at then a.created_at else m) := by
  by_cases h : m < a.created_at <;> simp [bumpMax, h]

theorem maxTs_append_one (ys : List Alert) (a : Alert) :
    maxTs (ys ++ [a]) = bumpMax (maxTs ys) a := by
  simp [maxTs, List.foldl_append]

theorem foldl_bumpMax_isSome (ys : List Alert) (m : Nat) :
    ∃ m', ys.foldl bumpMax (some m) = some m' := by
  induction ys generalizing m with
  | nil => exact ⟨m, rfl⟩
  | cons y t ih =>
    rw [List.foldl_cons, bumpMax_some]
    exact ih _

theorem maxTs_eq_none_iff (ys : List Alert) : maxTs ys = none ↔ ys = [] := by
  cases ys with
  | nil => simp [maxTs]
  | cons y t =>
    simp only [maxTs, List.foldl_cons]
    have : bumpMax none y = some y.created_at := rfl
    rw [this]
    obtain ⟨m', hm'⟩ := foldl_bumpMax_isSome t y.created_at
    simp [hm']

theorem foldl_bumpMax_bounds (ys : List Alert) (m0 m : Nat)
    (h : ys.foldl bumpMax (some m0) = some m) :
    m0 ≤ m ∧ ∀ y ∈ ys, y.created_at ≤ m := by
  induction ys generalizing m0 with
  | nil =>
    simp only [List.foldl_nil, Option.some.injEq] at h
    subst h
    exact ⟨le_refl _, by simp⟩
  | cons y t ih =>
    rw [List.foldl_cons, bumpMax_some] at h
    have h' := ih _ h
    constructor
    · by_cases hc : m0 < y.created_at
      · simp only [hc, if_true] at h'
        exact le_of_lt (lt_of_lt_of_le hc h'.1)
      · simp only [hc, if_false] at h'
        exact h'.1
    · intro z hz
      rcases List.mem_cons.mp hz with hz | hz
      · rw [hz]
        by_cases hc : m0 < y.created_at
        · simp only [hc, if_true] at h'
          exact h'.1
        · simp only [hc, if_false] at h'
          exact le_trans (le_of_not_lt hc) h'.1
      · exact h'.2 z hz


theorem maxTs_le (ys : List Alert) (m : Nat) (h : maxTs ys = some m) :
    ∀ y ∈ ys, y.created_at ≤ m := by
  cases ys with
  | nil => simp
  | cons y t =>
    simp only [maxTs, List.foldl_cons] at h
    have hb : bumpMax none y = some y.created_at := rfl
    rw [hb] at h
    have h' := foldl_bumpMax_bounds t y.created_at m h
    intro z hz
    rcases List.mem_cons.mp hz with hz | hz
    · rw [hz]
      exact h'.1
    · exact h'.2 z hz

theorem dropWhile_append_of_all {α : Type} (p : α → Bool) (l₁ l₂ : List α)
    (h : ∀ x ∈ l₁, p x = true) :
    (l₁ ++ l₂).dropWhile p = l₂.dropWhile p := by
  induction l₁ with
  | nil => simp
  | cons x t ih =>
    have hx : p x = true := h x (by simp)
    simp only [List.cons_append, List.dropWhile_cons, hx, if_true]
    exact ih (fun z hz => h z (by simp [hz]))

theorem dropWhile_append_of_exists {α : Type} (p : α → Bool) (l₁ l₂ : List α)
    (h : ∃ x ∈ l₁, p x = false) :
    (l₁ ++ l₂).dropWhile p = l₁.dropWhile p ++ l₂ := by
  induction l₁ with
  | nil => simp at h
  | cons x t ih =>
    by_cases hx : p x = true
    · simp only [List.cons_append, List.dropWhile_cons, hx, if_true]
      apply ih
      obtain ⟨z, hz, hpz⟩ := h
      rcases List.mem_cons.mp hz with hz | hz
      · subst hz; rw [hx] at hpz; cases hpz
      · exact ⟨z, hz, hpz⟩
    · have hx' : p x = false := by
        cases hp : p x
        · rfl
        · exact absurd hp hx
      simp [List.dropWhile_cons, hx']

theorem mem_dropWhile_of_mem {α : Type} (p : α → Bool) (l : List α) (a : α)
    (ha : a ∈ l) (hpa : p a = false) : a ∈ l.dropWhile p := by
  induction l with
  | nil => simp at ha
  | cons x t ih =>
    by_cases hx : p x = true
    · simp only [List.dropWhile_cons, hx, if_true]
      rcases List.mem_cons.mp ha with ha | ha
      · subst ha; rw [hx] at hpa; cases hpa
      · exact ih ha
    · have hx' : p x = false := by
        cases hp : p x
        · rfl
        · exact absurd hp hx
      simp only [List.dropWhile_cons, hx', Bool.false_eq_true, if_false]
      exact ha

theorem foldl_bumpMax_attained (ys : List Alert) (m0 m : Nat)
    (h : ys.foldl bumpMax (some m0) = some m) :
    m = m0 ∨ ∃ y ∈ ys, y.created_at = m := by
  induction ys generalizing m0 with
  | nil =>
    simp only [List.foldl_nil, Option.some.injEq] at h
    exact Or.inl h.symm
  | cons y t ih =>
    rw [List.foldl_cons, bumpMax_some] at h
    rcases ih _ h with h' | ⟨z, hz, hzm⟩
    · by_cases hc : m0 < y.created_at
      · simp only [hc, if_true] at h'
        exact Or.inr ⟨y, by simp, h'.symm⟩
      · simp only [hc, if_false] at h'
        exact Or.inl h'
    · exact Or.inr ⟨z, List.mem_cons_of_mem _ hz, hzm⟩

theorem maxTs_attained (ys : List Alert) (m : Nat) (h : maxTs ys = some m) :
    ∃ y ∈ ys, y.created_at = m := by
  cases ys with
  | nil => simp [maxTs] at h
  | cons y t =>
    simp only [maxTs, List.foldl_cons] at h
    have hb : bumpMax none y = some y.created_at := rfl
    rw [hb] at h
    rcases foldl_bumpMax_attained t y.created_at m h with h' | ⟨z, hz, hzm⟩
    · exact ⟨y, by simp, h'.symm⟩
    · exact ⟨z, List.mem_cons_of_mem _ hz, hzm⟩

theorem newIdsSpec_single (a : Alert) : newIdsSpec [a] = [a.id] := by
  simp [newIdsSpec, maxTs, List.foldl_cons, bumpMax, List.dropWhile]

theorem newIdsSpec_eq (ys : List Alert) (m : Nat) (h : maxTs ys = some m) :
    newIdsSpec ys =
      (ys.dropWhile (fun x => decide (x.created_at ≠ m))).map (fun x => x.id) := by
  unfold newIdsSpec
  rw [h]

theorem newIdsSpec_append_reset (ys : List Alert) (a : Alert) (m : Nat)
    (hm : maxTs ys = some m) (hlt : m < a.created_at) :
    newIdsSpec (ys ++ [a]) = [a.id] := by
  have hmax : maxTs (ys ++ [a]) = some a.created_at := by
    rw [maxTs_append_one, hm, bumpMax_some, if_pos hlt]
  have hall : ∀ x ∈ ys, (fun x => decide (x.created_at ≠ a.created_at)) x = true := by
    intro x hx
    have := maxTs_le ys m hm x hx
    simp only [decide_eq_true_eq]
    omega
  rw [newIdsSpec_eq _ _ hmax, dropWhile_append_of_all _ ys [a] hall]
  simp [List.dropWhile]

theorem newIdsSpec_append_keep (ys : List Alert) (a : Alert) (m : Nat)
    (hm : maxTs ys = some m) (hge : ¬ m < a.created_at) :
    newIdsSpec (ys ++ [a]) = newIdsSpec ys ++ [a.id] := by
  have hmax : maxTs (ys ++ [a]) = some m := by
    rw [maxTs_append_one, hm, bumpMax_some, if_neg hge]
  obtain ⟨z, hz, hzm⟩ := maxTs_attained ys m hm
  have hex : ∃ x ∈ ys, (fun x => decide (x.created_at ≠ m)) x = false := by
    exact ⟨z, hz, by simp [hzm]⟩
  rw [newIdsSpec_eq _ _ hmax, newIdsSpec_eq _ _ hm,
    dropWhile_append_of_exists _ ys [a] hex, List.map_append]
  rfl

theorem persistsSpec_append_one (ys : List Alert) (a : Alert) :
    persistsSpec (ys ++ [a]) =
      persistsSpec ys ++ [((maxTs (ys ++ [a])).getD 0, newIdsSpec (ys ++ [a]))] := by
  unfold persistsSpec
  have hlen : (ys ++ [a]).length = ys.length + 1 := by simp
  rw [hlen, List.range_succ, List.map_append]
  congr 1
  · apply List.map_congr_left
    intro k hk
    rw [List.mem_range] at hk
    rw [List.take_append_of_le_length (by omega)]
  · simp only [List.map_cons, List.map_nil]
    have htake : (ys ++ [a]).take (ys.length + 1) = ys ++ [a] := by
      apply List.take_of_length_le
      simp
    rw [htake]

/-- The coordinator invariant: at any point in a run, the running maximum,
the in-run id collection, the persist trace, and the stored state are the
ones determined by the records yielded so far. -/
def Inv (store0 : CursorState) (s : RunState) : Prop :=
  s.new_timestamp = maxTs s.yielded ∧
  s.new_alerts = newIdsSpec s.yielded ∧
  s.persists = persistsSpec s.yielded ∧
  s.store = storeSpec store0 s.persists

theorem stepUpdate_mem (ca : List String) (s : RunState) (a : Alert)
    (h : a.id ∈ ca) : stepUpdate ca s a = s := by
  simp [stepUpdate, h]

theorem stepUpdate_fresh (ca : List String) (s : RunState) (a : Alert)
    (hmem : a.id ∉ ca) (hnt : s.new_timestamp = none) :
    stepUpdate ca s a =
      { new_timestamp := some a.created_at
        new_alerts := [a.id]
        store := { last_timestamp := some a.created_at, seen_ids := [a.id] }
        yielded := s.yielded ++ [a]
        persists := s.persists ++ [(a.created_at, [a.id])] } := by
  simp [stepUpdate, hmem, hnt]

theorem stepUpdate_bump (ca : List String) (s : RunState) (a : Alert) (m : Nat)
    (hmem : a.id ∉ ca) (hnt : s.new_timestamp = some m) (hlt : m < a.created_at) :
    stepUpdate ca s a =
      { new_timestamp := some a.created_at
        new_alerts := [a.id]
        store := { last_timestamp := some a.created_at, seen_ids := [a.id] }
        yielded := s.yielded ++ [a]
        persists := s.persists ++ [(a.created_at, [a.id])] } := by
  simp [stepUpdate, hmem, hnt, hlt]

theorem stepUpdate_keep (ca : List String) (s : RunState) (a : Alert) (m : Nat)
    (hmem : a.id ∉ ca) (hnt : s.new_timestamp = some m) (hge : ¬ m < a.created_at) :
    stepUpdate ca s a =
      { new_timestamp := some m
        new_alerts := s.new_alerts ++ [a.id]
        store := { last_timestamp := some m, seen_ids := s.new_alerts ++ [a.id] }
        yielded := s.yielded ++ [a]
        persists := s.persists ++ [(m, s.new_alerts ++ [a.id])] } := by
  simp [stepUpdate, hmem, hnt, hge]

theorem stepUpdate_preserves (ca : List String) (store0 : CursorState) (s : RunState)
    (a : Alert) (hInv : Inv store0 s) :
    Inv store0 (stepUpdate ca s a) ∧
      (stepUpdate ca s a).yielded =
        (if a.id ∈ ca then s.yielded else s.yielded ++ [a]) := by
  obtain ⟨h1, h2, h3, h4⟩ := hInv
  by_cases hmem : a.id ∈ ca
  · rw [stepUpdate_mem ca s a hmem, if_pos hmem]
    exact ⟨⟨h1, h2, h3, h4⟩, rfl⟩
  · rw [if_neg hmem]
    cases hnt : s.new_timestamp with
    | none =>
      have hys : s.yielded = [] := by
        rw [hnt] at h1
        exact (maxTs_eq_none_iff _).mp h1.symm
      have hmax : maxTs (s.yielded ++ [a]) = some a.created_at := by
        rw [hys]
        rfl
      have hids : newIdsSpec (s.yielded ++ [a]) = [a.id] := by
        rw [hys, List.nil_append, newIdsSpec_single]
      rw [stepUpdate_fresh ca s a hmem hnt]
      refine ⟨⟨hmax.symm, hids.symm, ?_, ?_⟩, rfl⟩
      · rw [persistsSpec_append_one, ← h3, hmax, hids]
        rfl
      · simp only [storeSpec, List.getLast?_concat]
    | some m =>
      have hm : maxTs s.yielded = some m := by rw [← h1, hnt]
      by_cases hlt : m < a.created_at
      · have hmax : maxTs (s.yielded ++ [a]) = some a.created_at := by
          rw [maxTs_append_one, hm, bumpMax_some, if_pos hlt]
        have hids : newIdsSpec (s.yielded ++ [a]) = [a.id] :=
          newIdsSpec_append_reset _ _ _ hm hlt
        rw [stepUpdate_bump ca s a m hmem hnt hlt]
        refine ⟨⟨hmax.symm, hids.symm, ?_, ?_⟩, rfl⟩
        · rw [persistsSpec_append_one, ← h3, hmax, hids]
          rfl
        · simp only [storeSpec, List.getLast?_concat]
      · have hmax : maxTs (s.yielded ++ [a]) = some m := by
          rw [maxTs_append_one, hm, bumpMax_some, if_neg hlt]
        have hids : newIdsSpec (s.yielded ++ [a]) = newIdsSpec s.yielded ++ [a.id] :=
          newIdsSpec_append_keep _ _ _ hm hlt
        rw [stepUpdate_keep ca s a m hmem hnt hlt]
        refine ⟨⟨hmax.symm, ?_, ?_, ?_⟩, rfl⟩
        · rw [hids, h2]
        · rw [persistsSpec_append_one, ← h3, hmax, hids, h2]
          rfl
        · simp only [storeSpec, List.getLast?_concat]

theorem foldl_stepUpdate_spec (ca : List String) (store0 : CursorState) :
    ∀ (L : List Alert) (s : RunState), Inv store0 s →
      Inv store0 (L.foldl (stepUpdate ca) s) ∧
      (L.foldl (stepUpdate ca) s).yielded =
        s.yielded ++ L.filter (fun a => decide (a.id ∉ ca)) := by
  intro L
  induction L with
  | nil =>
    intro s hs
    simpa using hs
  | cons a t ih =>
    intro s hs
    rw [List.foldl_cons]
    have hstep := stepUpdate_preserves ca store0 s a hs
    have hrec := ih (stepUpdate ca s a) hstep.1
    refine ⟨hrec.1, ?_⟩
    rw [hrec.2, hstep.2]
    by_cases hmem : a.id ∈ ca
    · simp [hmem, List.filter_cons]
    · simp [hmem, List.filter_cons, List.append_assoc]

/-- Master characterization of one `_update_checkpoint` run: the yielded
records are exactly the fetched records whose id is not in the loaded
`seen_ids` snapshot, in order; the running maximum, in-run id collection,
persist trace and final stored state are as specified by `maxTs`,
`newIdsSpec`, `persistsSpec` and `storeSpec` over the yielded records. -/
theorem runCheckpoint_spec (store0 : CursorState) (L : List Alert) :
    Inv store0 (runCheckpoint store0 L) ∧
    (runCheckpoint store0 L).yielded =
      L.filter (fun a => decide (a.id ∉ store0.seen_ids)) := by
  have h0 : Inv store0
      { new_timestamp := none, new_alerts := [], store := store0,
        yielded := [], persists := [] } := ⟨rfl, rfl, rfl, rfl⟩
  have h := foldl_stepUpdate_spec store0.seen_ids store0 L _ h0
  exact ⟨h.1, by simpa using h.2⟩

end CoordinatorLemmas

section CodecLemmas

theorem digitsAux_spec (fuel : Nat) :
    ∀ n, n < fuel →
      (∀ d ∈ digitsAux fuel n, d < 10) ∧ ofDigitsRev (digitsAux fuel n) = n := by
  induction fuel with
  | zero =>
    intro n hn
    omega
  | succ f ih =>
    intro n hn
    by_cases h10 : n < 10
    · simp only [digitsAux, if_pos h10]
      constructor
      · intro d hd
        rcases List.mem_cons.mp hd with hd | hd
        · omega
        · simp at hd
      · simp [ofDigitsRev]
    · simp only [digitsAux, if_neg h10]
      have hdiv : n / 10 < f := by
        have h1 : n / 10 < n := Nat.div_lt_self (by omega) (by omega)
        omega
      have hrec := ih (n / 10) hdiv
      constructor
      · intro d hd
        rcases List.mem_cons.mp hd with hd | hd
        · omega
        · exact hrec.1 d hd
      · simp only [ofDigitsRev, hrec.2]
        omega

theorem char2digit_digit2char (d : Nat) (h : d < 10) :
    char2digit (digit2char d) = d := by
  interval_cases d <;> rfl

theorem decNat_natChars (n : Nat) : decNat (natChars n) = n := by
  unfold decNat natChars
  rw [List.map_reverse, List.reverse_reverse, List.map_map]
  have hspec := digitsAux_spec (n + 1) n (by omega)
  have hmap : (digitsAux (n + 1) n).map (char2digit ∘ digit2char)
      = (digitsAux (n + 1) n).map id := by
    apply List.map_congr_left
    intro d hd
    exact char2digit_digit2char d (hspec.1 d hd)
  rw [hmap, List.map_id]
  exact hspec.2

theorem isDig_digit2char (d : Nat) (h : d < 10) :
    isDig (digit2char d) = true := by
  interval_cases d <;> rfl

theorem natChars_isDig (n : Nat) : ∀ c ∈ natChars n, isDig c = true := by
  intro c hc
  unfold natChars at hc
  rw [List.mem_reverse, List.mem_map] at hc
  obtain ⟨d, hd, hde⟩ := hc
  rw [← hde]
  exact isDig_digit2char d ((digitsAux_spec (n + 1) n (by omega)).1 d hd)

theorem spanDigits_append (ds : List Char) (r : Char) (rest : List Char)
    (hds : ∀ c ∈ ds, isDig c = true) (hr : isDig r = false) :
    spanDigits (ds ++ r :: rest) = (ds, r :: rest) := by
  induction ds with
  | nil => simp [spanDigits, hr]
  | cons c t ih =>
    have hc : isDig c = true := hds c (by simp)
    have ht := ih (fun z hz => hds z (List.mem_cons_of_mem _ hz))
    simp [spanDigits, hc, ht]

theorem parseNatTerm_enc (t : Char) (ht : isDig t = false) (k : Nat)
    (rest : List Char) :
    parseNatTerm t (natChars k ++ t :: rest) = some (k, rest) := by
  unfold parseNatTerm
  rw [spanDigits_append (natChars k) t rest (natChars_isDig k) ht]
  show (if t = t then some (decNat (natChars k), rest) else none) = some (k, rest)
  rw [if_pos rfl, decNat_natChars]

theorem parseStr_enc (s : String) (rest : List Char) :
    parseStr (encStr s ++ rest) = some (s, rest) := by
  have hshape : encStr s ++ rest = natChars s.length ++ ':' :: (s.data ++ rest) := by
    unfold encStr
    simp
  unfold parseStr
  rw [hshape, parseNatTerm_enc ':' rfl s.length (s.data ++ rest)]
  have hlen : s.length = s.data.length := rfl
  have hle : s.length ≤ (s.data ++ rest).length := by
    rw [hlen, List.length_append]
    omega
  show (if s.length ≤ (s.data ++ rest).length then
      some (String.mk ((s.data ++ rest).take s.length), (s.data ++ rest).drop s.length)
    else none) = some (s, rest)
  rw [if_pos hle, hlen, List.take_left, List.drop_left]

theorem parseOptNat_enc (x : Option Nat) (rest : List Char) :
    parseOptNat (encOptNat x ++ rest) = some (x, rest) := by
  cases x with
  | none => rfl
  | some k =>
    have hshape : encOptNat (some k) ++ rest = 'd' :: (natChars k ++ ';' :: rest) := by
      unfold encOptNat
      simp
    rw [hshape]
    show (parseNatTerm ';' (natChars k ++ ';' :: rest)).bind
        (fun r => some (some r.1, r.2)) = some (some k, rest)
    rw [parseNatTerm_enc ';' rfl k rest]
    rfl

theorem parsePred_enc (p : Predicate) (rest : List Char) :
    parsePred (encPred p ++ rest) = some (p, rest) := by
  have hshape : encPred p ++ rest
      = encStr p.field ++ (encStr p.operator ++ (encStr p.value ++ rest)) := by
    unfold encPred
    simp
  unfold parsePred
  rw [hshape, parseStr_enc]
  show (parseStr (encStr p.operator ++ (encStr p.value ++ rest))).bind _ = _
  rw [parseStr_enc]
  show (parseStr (encStr p.value ++ rest)).bind _ = _
  rw [parseStr_enc]
  rfl

theorem parsePreds_enc (ps : List Predicate) :
    ∀ rest : List Char,
      parsePreds ps.length (encPredList ps ++ rest) = some (ps, rest) := by
  induction ps with
  | nil => intro rest; rfl
  | cons p t ih =>
    intro rest
    have hshape : encPredList (p :: t) ++ rest
        = encPred p ++ (encPredList t ++ rest) := by
      show (encPred p ++ encPredList t) ++ rest = _
      simp
    show parsePreds (t.length + 1) (encPredList (p :: t) ++ rest) = some (p :: t, rest)
    rw [hshape]
    show (parsePred (encPred p ++ (encPredList t ++ rest))).bind _ = _
    rw [parsePred_enc]
    show (parsePreds t.length (encPredList t ++ rest)).bind _ = _
    rw [ih rest]
    rfl

theorem parsePreds_enc_nil (ps : List Predicate) :
    parsePreds ps.length (encPredList ps) = some (ps, []) := by
  have h := parsePreds_enc ps []
  rwa [List.append_nil] at h

end CodecLemmas

section SearchLemmas

theorem foldl_queryEquals_time (fs : List (String × String)) :
    ∀ q : AlertQuery,
      (fs.foldl (fun q fv => queryEquals q fv.1 fv.2) q).start_date = q.start_date ∧
      (fs.foldl (fun q fv => queryEquals q fv.1 fv.2) q).end_date = q.end_date ∧
      (fs.foldl (fun q fv => queryEquals q fv.1 fv.2) q).on_date = q.on_date := by
  induction fs with
  | nil => exact fun q => ⟨rfl, rfl, rfl⟩
  | cons fv t ih =>
    intro q
    rw [List.foldl_cons]
    exact ih (queryEquals q fv.1 fv.2)

theorem createQuery_time (start end_ on_ : Option Nat) (filters : List (String × String)) :
    (createQuery start end_ on_ filters).start_date = start ∧
    (createQuery start end_ on_ filters).end_date = end_ ∧
    (createQuery start end_ on_ filters).on_date = on_ :=
  foldl_queryEquals_time filters _

end SearchLemmas

section StoreLemmas

theorem storeDelete_find (name : String) (st : CursorDir) :
    List.find? (fun e => e.1 == name) (storeDelete name st) = none := by
  unfold storeDelete
  induction st with
  | nil => rfl
  | cons e t ih =>
    by_cases he : e.1 = name
    · have : (e.1 != name) = false := by simp [he]
      rw [List.filter_cons, this]
      exact ih
    · have h1 : (e.1 != name) = true := by simp [he]
      rw [List.filter_cons, h1]
      have h2 : (e.1 == name) = false := by simp [he]
      simp only [if_true, List.find?_cons, h2]
      exact ih

theorem storeDelete_idem (name : String) (st : CursorDir) :
    storeDelete name (storeDelete name st) = storeDelete name st := by
  unfold storeDelete
  rw [List.filter_filter]
  apply List.filter_congr
  intro e _
  simp

end StoreLemmas

section BulkLemmas

theorem chunkedAux_spec {α : Type} (fuel : Nat) :
    ∀ l : List α, l.length ≤ fuel →
      (chunkedAux fuel l).flatten = l ∧
      ∀ ch ∈ chunkedAux fuel l, ch.length ≤ 100 ∧ ch ≠ [] := by
  induction fuel with
  | zero =>
    intro l hl
    have : l = [] := List.length_eq_zero.mp (by omega)
    rw [this]
    exact ⟨rfl, by intro ch hch; simp [chunkedAux] at hch⟩
  | succ f ih =>
    intro l hl
    cases l with
    | nil => exact ⟨rfl, by intro ch hch; simp [chunkedAux] at hch⟩
    | cons x xs =>
      have hdrop : ((x :: xs).drop 100).length ≤ f := by
        rw [List.length_drop]
        simp only [List.length_cons] at hl ⊢
        omega
      have hrec := ih ((x :: xs).drop 100) hdrop
      have hstep : chunkedAux (f + 1) (x :: xs)
          = ((x :: xs).take 100) :: chunkedAux f ((x :: xs).drop 100) := rfl
      constructor
      · rw [hstep, List.flatten_cons, hrec.1, List.take_append_drop]
      · intro ch hch
        rw [hstep] at hch
        rcases List.mem_cons.mp hch with hch | hch
        · constructor
          · rw [hch, List.length_take]
            omega
          · rw [hch]
            simp
        · exact hrec.2 ch hch

theorem chunked100_spec {α : Type} (l : List α) :
    (chunked100 l).flatten = l ∧
    ∀ ch ∈ chunked100 l, ch.length ≤ 100 ∧ ch ≠ [] :=
  chunkedAux_spec l.length l (le_refl _)

theorem foldl_firstKeys_mem {κ : Type} [DecidableEq κ] :
    ∀ (l acc : List κ) (x : κ),
      (x ∈ l.foldl (fun acc k => if k ∈ acc then acc else acc ++ [k]) acc)
        ↔ (x ∈ acc ∨ x ∈ l) := by
  intro l
  induction l with
  | nil => simp
  | cons k t ih =>
    intro acc x
    rw [List.foldl_cons]
    by_cases hk : k ∈ acc
    · rw [if_pos hk, ih]
      constructor
      · rintro (h | h)
        · exact Or.inl h
        · exact Or.inr (List.mem_cons_of_mem _ h)
      · rintro (h | h)
        · exact Or.inl h
        · rcases List.mem_cons.mp h with h | h
          · exact Or.inl (h ▸ hk)
          · exact Or.inr h
    · rw [if_neg hk, ih]
      constructor
      · rintro (h | h)
        · rcases List.mem_append.mp h with h | h
          · exact Or.inl h
          · exact Or.inr (by simp at h; simp [h])
        · exact Or.inr (List.mem_cons_of_mem _ h)
      · rintro (h | h)
        · exact Or.inl (List.mem_append_left _ h)
        · rcases List.mem_cons.mp h with h | h
          · exact Or.inl (List.mem_append_right _ (by simp [h]))
          · exact Or.inr h

theorem foldl_firstKeys_nodup {κ : Type} [DecidableEq κ] :
    ∀ (l acc : List κ), acc.Nodup →
      (l.foldl (fun acc k => if k ∈ acc then acc else acc ++ [k]) acc).Nodup := by
  intro l
  induction l with
  | nil => exact fun acc h => h
  | cons k t ih =>
    intro acc hacc
    rw [List.foldl_cons]
    by_cases hk : k ∈ acc
    · rw [if_pos hk]
      exact ih acc hacc
    · rw [if_neg hk]
      apply ih
      rw [List.nodup_append]
      exact ⟨hacc, List.nodup_singleton _, by
        intro x hx
        simp only [List.mem_singleton]
        intro hxk
        exact hk (hxk ▸ hx)⟩

theorem firstKeys_mem {κ : Type} [DecidableEq κ] (l : List κ) (x : κ) :
    x ∈ firstKeys l ↔ x ∈ l := by
  unfold firstKeys
  rw [foldl_firstKeys_mem]
  simp

theorem firstKeys_nodup {κ : Type} [DecidableEq κ] (l : List κ) :
    (firstKeys l).Nodup :=
  foldl_firstKeys_nodup l [] List.nodup_nil

theorem flatten_filter_perm {α κ : Type} [DecidableEq κ] (key : α → κ) :
    ∀ (l : List α) (keys : List κ), keys.Nodup → (∀ a ∈ l, key a ∈ keys) →
      (keys.map (fun k => l.filter (fun x => decide (key x = k)))).flatten.Perm l := by
  intro l
  induction l with
  | nil =>
    intro keys _ _
    have hmap : keys.map (fun k => List.filter (fun x => decide (key x = k)) [])
        = keys.map (fun _ => ([] : List α)) := rfl
    rw [hmap]
    have : (keys.map (fun _ => ([] : List α))).flatten = [] := by
      induction keys with
      | nil => rfl
      | cons _ _ ihk => simp [ihk]
    rw [this]
  | cons a l' ih =>
    intro keys hnd hcov
    obtain ⟨s, t, hst⟩ := List.append_of_mem (hcov a (by simp))
    subst hst
    have hnd' := hnd
    rw [List.nodup_append] at hnd'
    obtain ⟨hs, hkt, hdisj⟩ := hnd'
    have hka_t : key a ∉ t := (List.nodup_cons.mp hkt).1
    have hka_s : key a ∉ s := by
      intro hmem
      exact hdisj hmem (by simp)
    have hcov' : ∀ z ∈ l', key z ∈ s ++ key a :: t :=
      fun z hz => hcov z (List.mem_cons_of_mem _ hz)
    have hperm' := ih (s ++ key a :: t) hnd hcov'
    have hmap_s : s.map (fun k => (a :: l').filter (fun x => decide (key x = k)))
        = s.map (fun k => l'.filter (fun x => decide (key x = k))) := by
      apply List.map_congr_left
      intro k hk
      rw [List.filter_cons]
      have : ¬ key a = k := fun h => hka_s (h ▸ hk)
      simp [this]
    have hmap_t : t.map (fun k => (a :: l').filter (fun x => decide (key x = k)))
        = t.map (fun k => l'.filter (fun x => decide (key x = k))) := by
      apply List.map_congr_left
      intro k hk
      rw [List.filter_cons]
      have : ¬ key a = k := fun h => hka_t (h ▸ hk)
      simp [this]
    have hhead : (a :: l').filter (fun x => decide (key x = key a))
        = a :: l'.filter (fun x => decide (key x = key a)) := by
      rw [List.filter_cons]
      simp
    rw [List.map_append, List.map_cons, hmap_s, hmap_t, hhead,
      List.flatten_append, List.flatten_cons]
    rw [List.map_append, List.map_cons, List.flatten_append, List.flatten_cons] at hperm'
    have e1 : (s.map (fun k => l'.filter (fun x => decide (key x = k)))).flatten
          ++ ((a :: l'.filter (fun x => decide (key x = key a)))
            ++ (t.map (fun k => l'.filter (fun x => decide (key x = k)))).flatten)
        = (s.map (fun k => l'.filter (fun x => decide (key x = k)))).flatten
          ++ a :: (l'.filter (fun x => decide (key x = key a))
            ++ (t.map (fun k => l'.filter (fun x => decide (key x = k)))).flatten) := by
      simp
    rw [e1]
    exact List.Perm.trans List.perm_middle (List.Perm.cons a hperm')

theorem bucketize_flatten_perm {α κ β : Type} [DecidableEq κ]
    (l : List α) (key : α → κ) (val : α → β) :
    ((bucketize l key val).map (fun b => b.2)).flatten.Perm (l.map val) := by
  unfold bucketize
  rw [List.map_map]
  have hshape : ((fun b : κ × List β => b.2) ∘
        fun k => (k, (l.filter (fun x => decide (key x = k))).map val))
      = fun k => (l.filter (fun x => decide (key x = k))).map val := rfl
  rw [hshape]
  have hfuse : (firstKeys (l.map key)).map
        (fun k => (l.filter (fun x => decide (key x = k))).map val)
      = ((firstKeys (l.map key)).map
        (fun k => l.filter (fun x => decide (key x = k)))).map (List.map val) := by
    rw [List.map_map]
    rfl
  rw [hfuse, ← List.map_flatten]
  apply List.Perm.map
  apply flatten_filter_perm
  · exact firstKeys_nodup _
  · intro a ha
    rw [firstKeys_mem]
    exact List.mem_map_of_mem _ ha

end BulkLemmas

section TraceLemmas

theorem max_eq_ite (m c : Nat) : (if m < c then c else m) = Nat.max m c := by
  by_cases h : m < c
  · rw [if_pos h, Nat.max_eq_max, Nat.max_eq_right (le_of_lt h)]
  · rw [if_neg h, Nat.max_eq_max, Nat.max_eq_left (by omega)]

theorem foldl_bumpMax_eq_max (ys : List Alert) :
    ∀ m0 : Nat, ys.foldl bumpMax (some m0)
      = some ((ys.map (fun a => a.created_at)).foldl Nat.max m0) := by
  induction ys with
  | nil => intro m0; rfl
  | cons y t ih =>
    intro m0
    rw [List.foldl_cons, bumpMax_some, max_eq_ite, ih, List.map_cons, List.foldl_cons]

theorem maxTs_getD_eq_maxCreated (ys : List Alert) :
    (maxTs ys).getD 0 = maxCreated ys := by
  cases ys with
  | nil => rfl
  | cons y t =>
    unfold maxTs maxCreated
    rw [List.foldl_cons, show bumpMax none y = some y.created_at from rfl,
      foldl_bumpMax_eq_max, List.map_cons, List.foldl_cons, Nat.max_eq_max,
      Nat.max_eq_right (Nat.zero_le y.created_at)]
    rfl

theorem persistsSpec_length (ys : List Alert) :
    (persistsSpec ys).length = ys.length := by
  simp [persistsSpec]

theorem persistsSpec_get (ys : List Alert) (k : Nat)
    (hk : k < (persistsSpec ys).length) :
    (persistsSpec ys).get ⟨k, hk⟩
      = ((maxTs (ys.take (k + 1))).getD 0, newIdsSpec (ys.take (k + 1))) := by
  have hk' : k < ys.length := by
    rw [persistsSpec_length] at hk
    exact hk
  simp [persistsSpec, List.get_eq_getElem]

theorem maxTs_getD_append_le (ys zs : List Alert) :
    (maxTs ys).getD 0 ≤ (maxTs (ys ++ zs)).getD 0 := by
  have happ : maxTs (ys ++ zs) = zs.foldl bumpMax (maxTs ys) := by
    unfold maxTs
    rw [List.foldl_append]
  cases hys : maxTs ys with
  | none => simp
  | some m =>
    rw [happ, hys]
    obtain ⟨m', hm'⟩ := foldl_bumpMax_isSome zs m
    rw [hm']
    have := (foldl_bumpMax_bounds zs m m' hm').1
    simpa using this

theorem maxTs_take_mono (ys : List Alert) (i j : Nat) (hij : i ≤ j) :
    (maxTs (ys.take (i + 1))).getD 0 ≤ (maxTs (ys.take (j + 1))).getD 0 := by
  have hsplit : ys.take (j + 1)
      = ys.take (i + 1) ++ (ys.take (j + 1)).drop (i + 1) := by
    rw [show ys.take (i + 1) = (ys.take (j + 1)).take (i + 1) from by
      rw [List.take_take, Nat.min_eq_left (by omega)]]
    rw [List.take_append_drop]
  rw [hsplit]
  exact maxTs_getD_append_le _ _

theorem persistsSpec_getLast (ys : List Alert) (h : ys ≠ []) :
    (persistsSpec ys).getLast? = some ((maxTs ys).getD 0, newIdsSpec ys) := by
  rcases List.eq_nil_or_concat ys with hnil | ⟨zs, a, hza⟩
  · exact absurd hnil h
  · subst hza
    rw [List.concat_eq_append, persistsSpec_append_one, List.getLast?_concat]

theorem storeSpec_of_getLast (st : CursorState) (ps : List (Nat × List String))
    (p : Nat × List String) (h : ps.getLast? = some p) :
    storeSpec st ps = { last_timestamp := some p.1, seen_ids := p.2 } := by
  unfold storeSpec
  rw [h]

theorem mem_newIdsSpec_of_max (ys : List Alert) (a : Alert) (m : Nat)
    (ha : a ∈ ys) (hm : maxTs ys = some m) (hca : a.created_at = m) :
    a.id ∈ newIdsSpec ys := by
  rw [newIdsSpec_eq ys m hm]
  apply List.mem_map_of_mem
  apply mem_dropWhile_of_mem _ _ _ ha
  simp [hca]

theorem persistsSpec_getElem (ys : List Alert) (k : Nat) (p : Nat × List String)
    (h : (persistsSpec ys)[k]? = some p) :
    k < ys.length ∧
      p = ((maxTs (ys.take (k + 1))).getD 0, newIdsSpec (ys.take (k + 1))) := by
  have hk : k < (persistsSpec ys).length := by
    rcases List.getElem?_eq_some_iff.mp h with ⟨hh, _⟩
    exact hh
  have hk' : k < ys.length := by
    rw [persistsSpec_length] at hk
    exact hk
  unfold persistsSpec at h
  rw [List.getElem?_map, List.getElem?_range hk'] at h
  simp only [Option.map_some'] at h
  exact ⟨hk', (Option.some_inj.mp h).symm⟩

/-- The stored state after a run with at least one yielded record: a full
replacement by the final running maximum and id collection. -/
theorem run_store_of_yielded (store0 : CursorState) (L : List Alert)
    (h : (runCheckpoint store0 L).yielded ≠ []) :
    (runCheckpoint store0 L).store =
      { last_timestamp := some ((maxTs (runCheckpoint store0 L).yielded).getD 0),
        seen_ids := newIdsSpec (runCheckpoint store0 L).yielded } := by
  obtain ⟨⟨_, _, hp, hst⟩, _⟩ := runCheckpoint_spec store0 L
  rw [hst, hp, storeSpec_of_getLast _ _ _ (persistsSpec_getLast _ h)]

end TraceLemmas

/-- C1 counterexample: the tie-at-boundary scenario as stated by the claim is
false on the code. After the second run (fetch `[c@150, d@150]` against the
checkpoint left by the first run), the stored id set is `{"d"}` — the persist
is a full replacement by the ids yielded in the current run — so it does not
equal `{"c","d"}` as the claim requires ("c" is no longer stored). -/
theorem claim_C1_counterexample :
    ¬ ((runCheckpoint { last_timestamp := none, seen_ids := [] }
          [⟨"a", 100⟩, ⟨"b", 100⟩, ⟨"c", 150⟩]).yielded.map (fun a => a.id)
            = ["a", "b", "c"] ∧
        (runCheckpoint { last_timestamp := none, seen_ids := [] }
          [⟨"a", 100⟩, ⟨"b", 100⟩, ⟨"c", 150⟩]).store
            = { last_timestamp := some 150, seen_ids := ["c"] } ∧
        (runCheckpoint
            (runCheckpoint { last_timestamp := none, seen_ids := [] }
              [⟨"a", 100⟩, ⟨"b", 100⟩, ⟨"c", 150⟩]).store
            [⟨"c", 150⟩, ⟨"d", 150⟩]).yielded.map (fun a => a.id) = ["d"] ∧
        (runCheckpoint
            (runCheckpoint { last_timestamp := none, seen_ids := [] }
              [⟨"a", 100⟩, ⟨"b", 100⟩, ⟨"c", 150⟩]).store
            [⟨"c", 150⟩, ⟨"d", 150⟩]).store.last_timestamp = some 150 ∧
        "c" ∈ (runCheckpoint
            (runCheckpoint { last_timestamp := none, seen_ids := [] }
              [⟨"a", 100⟩, ⟨"b", 100⟩, ⟨"c", 150⟩]).store
            [⟨"c", 150⟩, ⟨"d", 150⟩]).store.seen_ids ∧
        "d" ∈ (runCheckpoint
            (runCheckpoint { last_timestamp := none, seen_ids := [] }
              [⟨"a", 100⟩, ⟨"b", 100⟩, ⟨"c", 150⟩]).store
            [⟨"c", 150⟩, ⟨"d", 150⟩]).store.seen_ids) := by
  decide

/-- C1 (amended): with no prior checkpoint state, fetching
`[a@100, b@100, c@150]` yields all three records and leaves the checkpoint at
`(150, {"c"})`; a second run against that checkpoint whose fetch returns
`[c@150, d@150]` yields only `d` and leaves the checkpoint at `(150, {"d"})`
(full replacement by the current run's boundary ids, not `{"c","d"}`). -/
theorem claim_C1 :
    (runCheckpoint { last_timestamp := none, seen_ids := [] }
        [⟨"a", 100⟩, ⟨"b", 100⟩, ⟨"c", 150⟩]).yielded.map (fun a => a.id)
          = ["a", "b", "c"] ∧
    (runCheckpoint { last_timestamp := none, seen_ids := [] }
        [⟨"a", 100⟩, ⟨"b", 100⟩, ⟨"c", 150⟩]).store
          = { last_timestamp := some 150, seen_ids := ["c"] } ∧
    (runCheckpoint
        (runCheckpoint { last_timestamp := none, seen_ids := [] }
          [⟨"a", 100⟩, ⟨"b", 100⟩, ⟨"c", 150⟩]).store
        [⟨"c", 150⟩, ⟨"d", 150⟩]).yielded.map (fun a => a.id) = ["d"] ∧
    (runCheckpoint
        (runCheckpoint { last_timestamp := none, seen_ids := [] }
          [⟨"a", 100⟩, ⟨"b", 100⟩, ⟨"c", 150⟩]).store
        [⟨"c", 150⟩, ⟨"d", 150⟩]).store
          = { last_timestamp := some 150, seen_ids := ["d"] } := by
  decide

/-- C2: on any fetched stream, the coordinator yields exactly the records
whose id is not in the loaded `seen_ids` snapshot, in order; its running
maximum is the maximum over yielded records (reset-and-set on strict
increase), its in-run id collection is the ids collected since the last
reset, it persists once per yielded record — the k-th persist carrying the
running maximum and id collection over the first k+1 yielded records — and
each persist fully replaces the stored timestamp and id set, so the final
store is the last persisted pair. -/
theorem claim_C2 (store0 : CursorState) (L : List Alert) :
    (runCheckpoint store0 L).yielded
        = L.filter (fun a => decide (a.id ∉ store0.seen_ids)) ∧
    (runCheckpoint store0 L).new_timestamp = maxTs (runCheckpoint store0 L).yielded ∧
    (runCheckpoint store0 L).new_alerts = newIdsSpec (runCheckpoint store0 L).yielded ∧
    (runCheckpoint store0 L).persists = persistsSpec (runCheckpoint store0 L).yielded ∧
    (runCheckpoint store0 L).store = storeSpec store0 (runCheckpoint store0 L).persists := by
  obtain ⟨⟨h1, h2, h3, h4⟩, hy⟩ := runCheckpoint_spec store0 L
  exact ⟨hy, h1, h2, h3, h4⟩

/-- C3: across two successive runs against the same checkpoint, where the
second fetch consists of records at or after the first run's final persisted
timestamp and is an id-superset of the first fetch's records at that
boundary, and where ids determine timestamps consistently across the two
fetches, no id present in the second fetch is yielded in both runs; and
every record whose id is in the loaded `seen_ids` is skipped, never
yielded. -/
theorem claim_C3 (s0 : CursorState) (L1 L2 : List Alert) (T1 : Nat)
    (hT1 : (runCheckpoint s0 L1).store.last_timestamp = some T1)
    (hts : ∀ r ∈ L2, T1 ≤ r.created_at)
    (_hsup : ∀ r ∈ L1, T1 ≤ r.created_at → ∃ r2 ∈ L2, r2.id = r.id)
    (hstable : ∀ r1 ∈ (runCheckpoint s0 L1).yielded, ∀ r2 ∈ L2,
        r2.id = r1.id → r2.created_at = r1.created_at) :
    (∀ x ∈ (runCheckpoint s0 L1).store.seen_ids,
        x ∉ (runCheckpoint (runCheckpoint s0 L1).store L2).yielded.map (fun a => a.id)) ∧
    (∀ x, (∃ r2 ∈ L2, r2.id = x) →
      ¬ (x ∈ (runCheckpoint s0 L1).yielded.map (fun a => a.id) ∧
         x ∈ (runCheckpoint (runCheckpoint s0 L1).store L2).yielded.map (fun a => a.id))) := by
  obtain ⟨_, hy2⟩ := runCheckpoint_spec (runCheckpoint s0 L1).store L2
  constructor
  · intro x hx hxin
    rw [hy2, List.mem_map] at hxin
    obtain ⟨r2, hr2mem, hr2id⟩ := hxin
    rw [List.mem_filter] at hr2mem
    have hnot := hr2mem.2
    rw [decide_eq_true_eq] at hnot
    exact hnot (hr2id ▸ hx)
  · rintro x _ ⟨hx1, hx2⟩
    rw [List.mem_map] at hx1
    obtain ⟨r1, hr1mem, hr1id⟩ := hx1
    have hyne : (runCheckpoint s0 L1).yielded ≠ [] := by
      intro hnil
      rw [hnil] at hr1mem
      simp at hr1mem
    have hstore := run_store_of_yielded s0 L1 hyne
    obtain ⟨M, hM⟩ : ∃ M, maxTs (runCheckpoint s0 L1).yielded = some M := by
      cases hmt : maxTs (runCheckpoint s0 L1).yielded with
      | none => exact absurd ((maxTs_eq_none_iff _).mp hmt) hyne
      | some M => exact ⟨M, rfl⟩
    have hT1' : some ((maxTs (runCheckpoint s0 L1).yielded).getD 0) = some T1 := by
      rw [← hT1, hstore]
    have hMT1 : M = T1 := by
      rw [hM] at hT1'
      simpa using hT1'
    have hmax : maxTs (runCheckpoint s0 L1).yielded = some T1 := by
      rw [hM, hMT1]
    rw [hy2, List.mem_map] at hx2
    obtain ⟨r2, hr2mem, hr2id⟩ := hx2
    rw [List.mem_filter] at hr2mem
    have hr2notseen : ¬ r2.id ∈ (runCheckpoint s0 L1).store.seen_ids := by
      have := hr2mem.2
      rwa [decide_eq_true_eq] at this
    have hsteq : r2.created_at = r1.created_at :=
      hstable r1 hr1mem r2 hr2mem.1 (by rw [hr2id, hr1id])
    have hge : T1 ≤ r1.created_at := by
      rw [← hsteq]
      exact hts r2 hr2mem.1
    have hle : r1.created_at ≤ T1 := maxTs_le _ T1 hmax r1 hr1mem
    have hmem_ids : r1.id ∈ newIdsSpec (runCheckpoint s0 L1).yielded :=
      mem_newIdsSpec_of_max _ r1 T1 hr1mem hmax (le_antisymm hle hge)
    apply hr2notseen
    rw [hstore]
    show r2.id ∈ newIdsSpec (runCheckpoint s0 L1).yielded
    rw [hr2id, ← hr1id]
    exact hmem_ids

/-- C3 witness: a concrete two-run instance (first fetch `[a@100, c@150]`,
second fetch `[c@150, d@150]`) satisfying every hypothesis. -/
theorem claim_C3_witness :
    (∀ x ∈ (runCheckpoint { last_timestamp := none, seen_ids := [] }
          [⟨"a", 100⟩, ⟨"c", 150⟩]).store.seen_ids,
        x ∉ (runCheckpoint
          (runCheckpoint { last_timestamp := none, seen_ids := [] }
            [⟨"a", 100⟩, ⟨"c", 150⟩]).store
          [⟨"c", 150⟩, ⟨"d", 150⟩]).yielded.map (fun a => a.id)) ∧
    (∀ x, (∃ r2 ∈ [Alert.mk "c" 150, Alert.mk "d" 150], r2.id = x) →
      ¬ (x ∈ (runCheckpoint { last_timestamp := none, seen_ids := [] }
            [⟨"a", 100⟩, ⟨"c", 150⟩]).yielded.map (fun a => a.id) ∧
         x ∈ (runCheckpoint
            (runCheckpoint { last_timestamp := none, seen_ids := [] }
              [⟨"a", 100⟩, ⟨"c", 150⟩]).store
            [⟨"c", 150⟩, ⟨"d", 150⟩]).yielded.map (fun a => a.id))) :=
  claim_C3 { last_timestamp := none, seen_ids := [] }
    [⟨"a", 100⟩, ⟨"c", 150⟩] [⟨"c", 150⟩, ⟨"d", 150⟩] 150
    (by decide) (by decide) (by decide) (by decide)

/-- C4: a fetch that is empty, or whose every record id is already in the
loaded `seen_ids`, yields nothing, makes no persist call at all, and leaves
the stored checkpoint state unchanged. -/
theorem claim_C4 (store0 : CursorState) (L : List Alert)
    (h : L = [] ∨ ∀ a ∈ L, a.id ∈ store0.seen_ids) :
    (runCheckpoint store0 L).yielded = [] ∧
    (runCheckpoint store0 L).persists = [] ∧
    (runCheckpoint store0 L).store = store0 := by
  obtain ⟨⟨_, _, hp, hst⟩, hy⟩ := runCheckpoint_spec store0 L
  have hfil : L.filter (fun a => decide (a.id ∉ store0.seen_ids)) = [] := by
    rcases h with h | h
    · rw [h]
      rfl
    · rw [List.filter_eq_nil_iff]
      intro a ha
      simp [h a ha]
  have hy0 : (runCheckpoint store0 L).yielded = [] := by rw [hy, hfil]
  have hp0 : (runCheckpoint store0 L).persists = [] := by rw [hp, hy0]; rfl
  refine ⟨hy0, hp0, ?_⟩
  rw [hst, hp0]
  rfl

/-- C4 witness: a fetch whose only record is already in the stored ids. -/
theorem claim_C4_witness :
    (runCheckpoint { last_timestamp := some 5, seen_ids := ["x"] }
        [⟨"x", 7⟩]).yielded = [] ∧
    (runCheckpoint { last_timestamp := some 5, seen_ids := ["x"] }
        [⟨"x", 7⟩]).persists = [] ∧
    (runCheckpoint { last_timestamp := some 5, seen_ids := ["x"] }
        [⟨"x", 7⟩]).store = { last_timestamp := some 5, seen_ids := ["x"] } :=
  claim_C4 { last_timestamp := some 5, seen_ids := ["x"] } [⟨"x", 7⟩] (by decide)

/-- C5 counterexample: with a checkpoint whose stored timestamp is 999 and an
advanced (raw serialized) query whose start is 5, the executed query keeps
start 5 — the stored checkpoint timestamp is not applied on the
advanced-query path, contradicting the claim's "including when an advanced
query is supplied". -/
theorem claim_C5_counterexample :
    searchPrepare true (some 999)
        (some (serializeQuery
          { start_date := some 5, end_date := none, on_date := none, predicates := [] }))
        none none none []
      = SearchOutcome.runQuery
          { start_date := some 5, end_date := none, on_date := none, predicates := [] } ∧
    ({ start_date := some 5, end_date := none, on_date := none,
        predicates := [] } : AlertQuery).start_date ≠ some 999 := by
  decide

/-- C5 (amended): when no advanced query is supplied and the checkpoint's
stored timestamp exists and is nonzero, the executed query's start timestamp
is the stored timestamp, overriding any caller-supplied start; with an
advanced query the stored timestamp is ignored and the query is parsed
as-is. -/
theorem claim_C5 (t : Nat) (ht : t ≠ 0) (startOpt endOpt onOpt : Option Nat)
    (filters : List (String × String)) :
    searchPrepare true (some t) none startOpt endOpt onOpt filters
      = SearchOutcome.runQuery (createQuery (some t) endOpt onOpt filters) ∧
    (createQuery (some t) endOpt onOpt filters).start_date = some t := by
  constructor
  · simp [searchPrepare, ht]
  · exact (createQuery_time (some t) endOpt onOpt filters).1

/-- C5 witness: stored timestamp 7 overrides caller start 3. -/
theorem claim_C5_witness :
    searchPrepare true (some 7) none (some 3) none none []
      = SearchOutcome.runQuery (createQuery (some 7) none none []) ∧
    (createQuery (some 7) none none []).start_date = some 7 :=
  claim_C5 7 (by decide) (some 3) none none []

/-- C6 counterexample: the usage error is raised if and only if the search
has no time bound at all, but "no previously-stored checkpoint timestamp
exists" is not equivalent to that condition: with a stored timestamp equal to
0 (a falsy float for the code's `if checkpoint:` test) the error is raised
even though a stored timestamp exists, so the claim's biconditional fails at
this input. -/
theorem claim_C6_counterexample :
    ¬ ((searchPrepare true (some 0) none none none none [] = SearchOutcome.usageError)
        ↔ ((none : Option String) = none ∧ (none : Option Nat) = none ∧
            (none : Option Nat) = none ∧ (none : Option Nat) = none ∧
            (some 0 : Option Nat) = none)) := by
  decide

/-- C6 (amended): the search raises the usage error — before any query is
built or executed — if and only if no advanced query is supplied, none of
start/end/on is supplied, and no truthy (nonzero) stored checkpoint
timestamp exists for the given checkpoint name. -/
theorem claim_C6 (hasCp : Bool) (storedTs : Option Nat) (adv : Option String)
    (startOpt endOpt onOpt : Option Nat) (filters : List (String × String)) :
    searchPrepare hasCp storedTs adv startOpt endOpt onOpt filters
        = SearchOutcome.usageError
      ↔ (adv = none ∧ startOpt = none ∧ endOpt = none ∧ onOpt = none ∧
          ¬ (hasCp = true ∧ ∃ t, storedTs = some t ∧ t ≠ 0)) := by
  cases adv with
  | some s =>
    cases hps : parseRaw s <;> simp [searchPrepare, hps]
  | none =>
    cases hasCp with
    | false =>
      cases startOpt <;> cases endOpt <;> cases onOpt <;> simp [searchPrepare]
    | true =>
      cases storedTs with
      | none =>
        cases startOpt <;> cases endOpt <;> cases onOpt <;> simp [searchPrepare]
      | some t =>
        by_cases ht0 : t = 0
        · subst ht0
          cases startOpt <;> cases endOpt <;> cases onOpt <;> simp [searchPrepare]
        · simp [searchPrepare, ht0]

/-- C7: parsing the canonical serialization of any query returns the query
itself, equal in all fields (start/end/on and the ordered predicate
sequence) — unconditionally, for every query, including predicate values
that contain separator characters: the canonical form length-prefixes every
string value, so the round-trip is exact as the spec requires. -/
theorem claim_C7 (q : AlertQuery) :
    parseRaw (serializeQuery q) = some q := by
  have hdata : (serializeQuery q).data
      = encOptNat q.start_date ++ (encOptNat q.end_date ++ (encOptNat q.on_date
        ++ (natChars q.predicates.length ++ ';' :: encPredList q.predicates))) := by
    show encOptNat q.start_date ++ encOptNat q.end_date ++ encOptNat q.on_date
        ++ natChars q.predicates.length ++ ';' :: encPredList q.predicates = _
    simp
  unfold parseRaw
  rw [hdata, parseOptNat_enc]
  show (parseOptNat (encOptNat q.end_date ++ (encOptNat q.on_date
      ++ (natChars q.predicates.length ++ ';' :: encPredList q.predicates)))).bind _ = _
  rw [parseOptNat_enc]
  show (parseOptNat (encOptNat q.on_date
      ++ (natChars q.predicates.length ++ ';' :: encPredList q.predicates))).bind _ = _
  rw [parseOptNat_enc]
  show (parseNatTerm ';' (natChars q.predicates.length
      ++ ';' :: encPredList q.predicates)).bind _ = _
  rw [parseNatTerm_enc ';' rfl]
  show (parsePreds q.predicates.length (encPredList q.predicates)).bind _ = _
  rw [parsePreds_enc_nil]
  rfl

/-- C8: deleting a checkpoint name removes all its state (`get` returns none
and `get_items` returns the empty list afterwards), deleting is idempotent,
and deleting a name with no stored state is a no-op that leaves the store
exactly as it was. -/
theorem claim_C8 (st : CursorDir) (name : String) :
    storeDelete name (storeDelete name st) = storeDelete name st ∧
    storeGet name (storeDelete name st) = none ∧
    storeGetItems name (storeDelete name st) = [] ∧
    ((∀ e ∈ st, e.1 ≠ name) → storeDelete name st = st) := by
  refine ⟨storeDelete_idem name st, ?_, ?_, ?_⟩
  · unfold storeGet
    rw [storeDelete_find]
  · unfold storeGetItems
    rw [storeDelete_find]
  · intro h
    unfold storeDelete
    rw [List.filter_eq_self]
    intro e he
    simp [h e he]

/-- C8 witness: deleting the absent name "other" from a one-entry store. -/
theorem claim_C8_witness :
    storeDelete "other" (storeDelete "other"
        [("alerts", ({ last_timestamp := some 5, seen_ids := ["x"] } : CursorState))])
      = storeDelete "other"
        [("alerts", ({ last_timestamp := some 5, seen_ids := ["x"] } : CursorState))] ∧
    storeGet "other" (storeDelete "other"
        [("alerts", ({ last_timestamp := some 5, seen_ids := ["x"] } : CursorState))])
      = none ∧
    storeGetItems "other" (storeDelete "other"
        [("alerts", ({ last_timestamp := some 5, seen_ids := ["x"] } : CursorState))])
      = [] ∧
    storeDelete "other"
        [("alerts", ({ last_timestamp := some 5, seen_ids := ["x"] } : CursorState))]
      = [("alerts", ({ last_timestamp := some 5, seen_ids := ["x"] } : CursorState))] := by
  have h := claim_C8
    [("alerts", ({ last_timestamp := some 5, seen_ids := ["x"] } : CursorState))] "other"
  exact ⟨h.1, h.2.1, h.2.2.1, h.2.2.2 (by decide)⟩

/-- C9: within one run there is exactly one persist per yielded record, the
timestamp of the k-th persist equals the maximum `created_at` among the
first k+1 yielded records, and the persisted timestamps are non-decreasing —
for every input stream, sorted or not. -/
theorem claim_C9 (store0 : CursorState) (L : List Alert) :
    (runCheckpoint store0 L).persists.length = (runCheckpoint store0 L).yielded.length ∧
    (∀ (k : Nat) (p : Nat × List String), (runCheckpoint store0 L).persists[k]? = some p →
      p.1 = maxCreated ((runCheckpoint store0 L).yielded.take (k + 1))) ∧
    (∀ (i j : Nat) (pi pj : Nat × List String), i ≤ j →
      (runCheckpoint store0 L).persists[i]? = some pi →
      (runCheckpoint store0 L).persists[j]? = some pj →
      pi.1 ≤ pj.1) := by
  obtain ⟨⟨_, _, hp, _⟩, _⟩ := runCheckpoint_spec store0 L
  refine ⟨?_, ?_, ?_⟩
  · rw [hp, persistsSpec_length]
  · intro k p hkp
    rw [hp] at hkp
    obtain ⟨_, hpe⟩ := persistsSpec_getElem _ k p hkp
    rw [hpe]
    exact maxTs_getD_eq_maxCreated _
  · intro i j pi pj hij hi hj
    rw [hp] at hi hj
    obtain ⟨_, hpi⟩ := persistsSpec_getElem _ i pi hi
    obtain ⟨_, hpj⟩ := persistsSpec_getElem _ j pj hj
    rw [hpi, hpj]
    exact maxTs_take_mono _ i j hij

/-- C9 witness: an unsorted stream `[a@5, b@3, c@9]` — one persist per yield,
prefix maxima as timestamps, non-decreasing. -/
theorem claim_C9_witness :
    (runCheckpoint { last_timestamp := none, seen_ids := [] }
        [⟨"a", 5⟩, ⟨"b", 3⟩, ⟨"c", 9⟩]).persists.length
      = (runCheckpoint { last_timestamp := none, seen_ids := [] }
        [⟨"a", 5⟩, ⟨"b", 3⟩, ⟨"c", 9⟩]).yielded.length ∧
    ((5 : Nat), ["a", "b"]).1
      = maxCreated ((runCheckpoint { last_timestamp := none, seen_ids := [] }
        [⟨"a", 5⟩, ⟨"b", 3⟩, ⟨"c", 9⟩]).yielded.take 2) ∧
    ((5 : Nat), ["a"]).1 ≤ ((9 : Nat), ["c"]).1 := by
  have h := claim_C9 { last_timestamp := none, seen_ids := [] }
    [⟨"a", 5⟩, ⟨"b", 3⟩, ⟨"c", 9⟩]
  exact ⟨h.1, h.2.1 1 (5, ["a", "b"]) (by decide),
    h.2.2 0 2 (5, ["a"]) (9, ["c"]) (by decide) (by decide) (by decide)⟩

/-- C10: `bulk_update_state` groups parsed rows by the pair of effective
state and effective note — a supplied (non-empty) `--state`/`--note` option
value overriding the per-row value — and cuts each group's alert ids into
chunks of at most 100 per API call; the chunks across all groups contain
exactly the input rows' alert ids (as a permutation of that multiset). -/
theorem claim_C10 (optState optNote : Option String) (rows : List AlertRow)
    (hs : ∀ s, optState = some s → s ≠ "") (hn : ∀ s, optNote = some s → s ≠ "") :
    bulkPlan optState optNote rows
      = (bucketize rows
          (fun r => (overrideOr optState r.state, overrideOr optNote r.note))
          (fun r => r.alert_id)).map (fun b => (b.1, chunked100 b.2)) ∧
    (∀ b ∈ bulkPlan optState optNote rows, ∀ ch ∈ b.2, ch.length ≤ 100 ∧ ch ≠ []) ∧
    ((bulkPlan optState optNote rows).map (fun b => b.2.flatten)).flatten.Perm
      (rows.map (fun r => r.alert_id)) := by
  have hkey : (fun r : AlertRow => (pyOr optState r.state, pyOr optNote r.note))
      = (fun r : AlertRow => (overrideOr optState r.state, overrideOr optNote r.note)) := by
    funext r
    have hst : pyOr optState r.state = overrideOr optState r.state := by
      cases hso : optState with
      | none => rfl
      | some s =>
        show (if s = "" then r.state else some s) = some s
        rw [if_neg (hs s hso)]
    have hnt : pyOr optNote r.note = overrideOr optNote r.note := by
      cases hno : optNote with
      | none => rfl
      | some s =>
        show (if s = "" then r.note else some s) = some s
        rw [if_neg (hn s hno)]
    rw [hst, hnt]
  refine ⟨?_, ?_, ?_⟩
  · unfold bulkPlan
    rw [hkey]
  · intro b hb ch hch
    unfold bulkPlan at hb
    rw [List.mem_map] at hb
    obtain ⟨b0, _, hb0⟩ := hb
    rw [← hb0] at hch
    exact (chunked100_spec b0.2).2 ch hch
  · have hflat : (bulkPlan optState optNote rows).map (fun b => b.2.flatten)
        = (bucketize rows (fun r => (pyOr optState r.state, pyOr optNote r.note))
            (fun r => r.alert_id)).map (fun b => b.2) := by
      unfold bulkPlan
      rw [List.map_map]
      apply List.map_congr_left
      intro b _
      exact (chunked100_spec b.2).1
    rw [hflat]
    exact bucketize_flatten_perm rows _ _

/-- C10 witness: three rows with `--state RESOLVED` supplied and no note
option. -/
theorem claim_C10_witness :
    bulkPlan (some "RESOLVED") none
        [⟨"a1", some "OPEN", none⟩, ⟨"a2", some "PENDING", some "x"⟩,
          ⟨"a3", some "OPEN", none⟩]
      = (bucketize
          [(⟨"a1", some "OPEN", none⟩ : AlertRow), ⟨"a2", some "PENDING", some "x"⟩,
            ⟨"a3", some "OPEN", none⟩]
          (fun r => (overrideOr (some "RESOLVED") r.state, overrideOr none r.note))
          (fun r => r.alert_id)).map (fun b => (b.1, chunked100 b.2)) ∧
    (∀ b ∈ bulkPlan (some "RESOLVED") none
        [(⟨"a1", some "OPEN", none⟩ : AlertRow), ⟨"a2", some "PENDING", some "x"⟩,
          ⟨"a3", some "OPEN", none⟩], ∀ ch ∈ b.2, ch.length ≤ 100 ∧ ch ≠ []) ∧
    ((bulkPlan (some "RESOLVED") none
        [(⟨"a1", some "OPEN", none⟩ : AlertRow), ⟨"a2", some "PENDING", some "x"⟩,
          ⟨"a3", some "OPEN", none⟩]).map (fun b => b.2.flatten)).flatten.Perm
      ([(⟨"a1", some "OPEN", none⟩ : AlertRow), ⟨"a2", some "PENDING", some "x"⟩,
          ⟨"a3", some "OPEN", none⟩].map (fun r => r.alert_id)) :=
  claim_C10 (some "RESOLVED") none
    [⟨"a1", some "OPEN", none⟩, ⟨"a2", some "PENDING", some "x"⟩,
      ⟨"a3", some "OPEN", none⟩]
    (fun s hsome => by
      rw [Option.some_inj] at hsome
      rw [← hsome]
      decide)
    (fun s hsome => by cases hsome)

end Incydr
